import Mathlib

/-!
Verification development for the quorum-reporting storage-state decoder and
its RPC surface.  The Go functions under `core/rpc/apis.go` are embedded
shallowly; the leaf primitives of the storage parser (`hash`, `roundUpTo32`,
`ExtractFromSingleStorage`) are pinned by the repository's unit tests and the
specification, and are modelled accordingly.  Machine integers are modelled
as `Nat` with explicit reduction modulo `2 ^ 64` where Go's `uint64`
overflow semantics matter.
-/

set_option maxRecDepth 100000

namespace QuorumReport

/-! ## SlotHasher: Keccak-256

Modelled from the spec: the implementation of `hash` is not among the
provided source files (only its unit tests are).  The spec fixes it as "the
32-byte digest of the VM's fixed cryptographic hash function" — the
Ethereum VM's Keccak-256 — pinned by the exact vectors of spec §8 and by
the unit tests `Test_Hash_SmallBigInt` / `Test_Hash_LargeInt`.  Lanes are
64-bit words modelled as `Nat` kept below `2 ^ 64`. -/

/-- 64-bit rotate left; the argument is reduced modulo `2 ^ 64`. -/
def rotl64 (x n : Nat) : Nat :=
  if n = 0 then x % 2 ^ 64
  else (((x % 2 ^ 64) <<< n) % 2 ^ 64) ||| ((x % 2 ^ 64) >>> (64 - n))

/-- One step of the degree-8 LFSR (polynomial x^8+x^6+x^5+x^4+1) that
generates the iota round-constant bits. -/
def keccakLFSRStep (r : Nat) : Nat :=
  ((r <<< 1) ^^^ ((r >>> 7) * 0x71)) % 256

/-- The 24 Keccak-f[1600] round constants: bit `2^j - 1` of constant `ir`
is the LFSR output after `7*ir + j` steps from seed 1. -/
def keccakRC : List Nat :=
  (List.range 24).map (fun ir =>
    (List.range 7).foldl (fun acc j =>
      acc + ((keccakLFSRStep^[7 * ir + j] 1) &&& 1) * 2 ^ (2 ^ j - 1)) 0)

/-- Keccak rho rotation offsets, indexed by lane position `x + 5*y`: the
triangular numbers (t+1)(t+2)/2 mod 64 laid out along the pi orbit of
(1,0). -/
def keccakRot : List Nat :=
  ((List.range 24).foldl
    (fun (st : List Nat × Nat × Nat) t =>
      (st.1.set (st.2.1 + 5 * st.2.2) ((t + 1) * (t + 2) / 2 % 64),
        st.2.2, (2 * st.2.1 + 3 * st.2.2) % 5))
    (List.replicate 25 0, 1, 0)).1

/-- One Keccak-f round (theta, rho, pi, chi, iota) on a 25-lane state. -/
def keccakRound (a : List Nat) (rc : Nat) : List Nat :=
  let c := (List.range 5).map (fun x =>
    a.getD x 0 ^^^ a.getD (x + 5) 0 ^^^ a.getD (x + 10) 0 ^^^
      a.getD (x + 15) 0 ^^^ a.getD (x + 20) 0)
  let d := (List.range 5).map (fun x =>
    c.getD ((x + 4) % 5) 0 ^^^ rotl64 (c.getD ((x + 1) % 5) 0) 1)
  let a1 := (List.range 25).map (fun i => a.getD i 0 ^^^ d.getD (i % 5) 0)
  let b := (List.range 25).foldl (fun st i =>
    let x := i % 5
    let y := i / 5
    st.set (y + 5 * ((2 * x + 3 * y) % 5)) (rotl64 (a1.getD i 0) (keccakRot.getD i 0)))
    (List.replicate 25 0)
  (List.range 25).map (fun i =>
    let x := i % 5
    let y := i / 5
    let v := b.getD i 0 ^^^
      ((b.getD ((x + 1) % 5 + 5 * y) 0 ^^^ (2 ^ 64 - 1)) &&& b.getD ((x + 2) % 5 + 5 * y) 0)
    if i = 0 then v ^^^ rc else v)

/-- The full Keccak-f[1600] permutation: 24 rounds. -/
def keccakF (a : List Nat) : List Nat :=
  keccakRC.foldl keccakRound a

/-- Multi-rate padding to the 136-byte Keccak-256 rate (single block:
inputs here are at most 64 bytes). -/
def keccakPad (m : List Nat) : List Nat :=
  let padLen := 136 - m.length % 136
  if padLen = 1 then m ++ [0x81]
  else m ++ [0x01] ++ List.replicate (padLen - 2) 0 ++ [0x80]

/-- Interpret a 136-byte block as 17 little-endian 64-bit lanes. -/
def bytesToLanes (bs : List Nat) : List Nat :=
  (List.range 17).map (fun j =>
    (List.range 8).foldr (fun k acc => acc * 256 + bs.getD (8 * j + k) 0) 0)

/-- Keccak-256 digest (32 bytes) of a message of fewer than 136 bytes. -/
def keccak256Bytes (m : List Nat) : List Nat :=
  let st := keccakF (bytesToLanes (keccakPad m) ++ List.replicate 8 0)
  (List.range 32).map (fun i => (st.getD (i / 8) 0 >>> (8 * (i % 8))) % 256)

/-- Canonical 32-byte big-endian encoding of a 256-bit value. -/
def natToBytes32 (n : Nat) : List Nat :=
  (List.range 32).map (fun i => (n >>> (8 * (31 - i))) % 256)

/-- Big-endian numeric value of a byte string. -/
def bytesBE (bs : List Nat) : Nat :=
  bs.foldl (fun acc b => acc * 256 + b) 0

/-- Modelled from the spec: `hash(bytes) -> Word` — the repository's
`hash` applied to a single 32-byte canonical big-endian encoding, returning
the digest word as a 256-bit value (as printed by `Hash.String()` in the
unit tests). -/
def hash (input : Nat) : Nat :=
  bytesBE (keccak256Bytes (natToBytes32 input))

/-- Modelled from the spec: the two-argument form of the same primitive,
`hash(encode32(k) ++ encode32(p))`, used for mapping-slot addressing. -/
def hash2 (k p : Nat) : Nat :=
  bytesBE (keccak256Bytes (natToBytes32 k ++ natToBytes32 p))

/-! ## SlotResolver: roundUpTo32

Modelled from the spec: the implementation of `roundUpTo32` is not among the
provided source files (only the unit tests `Test_RoundUp32_*` are).  The
spec defines it as "ceiling to the next multiple of 32 (0 maps to 0)". -/

/-- Modelled from the spec: `roundUpTo32(n)` — the least multiple of 32
that is `≥ n`. -/
def roundUpTo32 (n : Nat) : Nat :=
  ((n + 31) / 32) * 32

/-! ## ByteAligner: ExtractFromSingleStorage

Modelled from the spec: the implementation of `ExtractFromSingleStorage` is
not among the provided source files (only its unit tests are).  Spec §4.3:
`extract(offset, length, rawBytes)` returns the `length`-byte window located
`offset` bytes in from the least-significant (right-hand) end of `rawBytes`;
reads extending past the available bytes are treated as zero.  Bytes are
listed big-endian (index 0 is the most significant byte), matching the raw
storage words of the tests. -/

/-- The byte `k` positions in from the right-hand end of `bs`
(zero when `k` is past the available bytes). -/
def byteFromRight (bs : List Nat) (k : Nat) : Nat :=
  if h : k < bs.length then bs.get ⟨bs.length - 1 - k, by omega⟩ else 0

/-- Modelled from the spec: `ExtractFromSingleStorage` — the `length`-byte
window `offset` bytes in from the right-hand end, returned big-endian. -/
def extract (offset length : Nat) (rawBytes : List Nat) : List Nat :=
  (List.range length).map (fun j => byteFromRight rawBytes (offset + length - 1 - j))

/-! ## HistoryAssembler: GetStorageHistory (core/rpc/apis.go, lines 126-151)

The Go loop runs i from startBlockNumber while i <= endBlockNumber,
calling r.db.GetStorage(address, i) — returning (nil, err) on error —
skipping the block when the raw storage map is nil, otherwise calling
parseRawStorage — again (nil, err) on error — and appending a ParsedState
for block i; after the loop it returns the response with the accumulated
states and a nil error.  It is embedded twice: once as a denotation over the list of in-range block
numbers (with the sequence of `GetStorage` calls made explicit), and once
as a small-step machine over `uint64` loop state, faithful to the wrap of
`i++` modulo `2 ^ 64`.  `r.db.GetStorage` and `parseRawStorage` are external
collaborators (database / storage parser), taken as function parameters;
a `nil` raw-storage map is modelled as `none`. -/

/-- Go `error` values, modelled by their message. -/
abbrev Err := String

/-- A contract address (`common.Address`), a 160-bit value as `Nat`. -/
abbrev Address := Nat

/-- Go common.Address zero literal, the all-zero address. -/
def zeroAddress : Address := 0

/-- One entry of the response: Go ParsedState with fields BlockNumber, HistoricStorage. -/
structure ParsedState (π : Type) where
  blockNumber : Nat
  historicStorage : π
  deriving DecidableEq

/-- The Go ReportingResponseTemplate with fields Address, HistoricState. -/
structure ReportingResponseTemplate (π : Type) where
  address : Address
  historicState : List (ParsedState π)
  deriving DecidableEq

/-- The ascending list of block numbers the loop ranges over:
`startBlockNumber, ..., endBlockNumber` (empty when start > end). -/
def blockRange (s e : Nat) : List Nat :=
  List.range' s (e + 1 - s)

/-- The loop body of `GetStorageHistory`, iterated over the remaining block
numbers, with accumulator `acc`; also returns the list of blocks on which
`r.db.GetStorage` was called. -/
def gshGo {σ π : Type} (fetch : Nat → Except Err (Option σ)) (parse : σ → Except Err π) :
    List Nat → List (ParsedState π) → Except Err (List (ParsedState π)) × List Nat
  | [], acc => (.ok acc, [])
  | i :: rest, acc =>
    match fetch i with
    | .error e => (.error e, [i])
    | .ok none =>
      let r := gshGo fetch parse rest acc
      (r.1, i :: r.2)
    | .ok (some raw) =>
      match parse raw with
      | .error e => (.error e, [i])
      | .ok v =>
        let r := gshGo fetch parse rest (acc ++ [⟨i, v⟩])
        (r.1, i :: r.2)

/-- `GetStorageHistory`: first component mirrors the Go return pair
`(*ReportingResponseTemplate, error)` — `(nil, err)` on the first error,
`(&resp, nil)` on success; second component is the list of blocks fetched. -/
def getStorageHistory {σ π : Type} (address : Address) (s e : Nat)
    (fetch : Nat → Except Err (Option σ)) (parse : σ → Except Err π) :
    (Option (ReportingResponseTemplate π) × Option Err) × List Nat :=
  let r := gshGo fetch parse (blockRange s e) []
  match r.1 with
  | .ok sts => ((some ⟨address, sts⟩, none), r.2)
  | .error e => ((none, some e), r.2)

/-- The `uint64` loop state of `GetStorageHistory`: loop counter `i` and the
accumulated `historicStates`. -/
structure LoopState (π : Type) where
  i : Nat
  states : List (ParsedState π)
  deriving DecidableEq

/-- The loop either still runs or has returned a Go result pair. -/
inductive LoopOut (π : Type) where
  | running (st : LoopState π)
  | done (resp : Option (ReportingResponseTemplate π)) (err : Option Err)
  deriving DecidableEq

/-- One loop-condition check plus (when the condition holds) one execution
of the loop body; `i++` wraps modulo `2 ^ 64` as Go `uint64` increment does. -/
def gshStep {σ π : Type} (address : Address)
    (fetch : Nat → Except Err (Option σ)) (parse : σ → Except Err π)
    (endBlockNumber : Nat) : LoopOut π → LoopOut π
  | .running st =>
    if st.i ≤ endBlockNumber then
      match fetch st.i with
      | .error e => .done none (some e)
      | .ok none => .running ⟨(st.i + 1) % 2 ^ 64, st.states⟩
      | .ok (some raw) =>
        match parse raw with
        | .error e => .done none (some e)
        | .ok v => .running ⟨(st.i + 1) % 2 ^ 64, st.states ++ [⟨st.i, v⟩]⟩
    else .done (some ⟨address, st.states⟩) none
  | .done r e => .done r e

/-- The machine after `n` steps from the loop entry `i = startBlockNumber`,
`historicStates = []`. -/
def gshIter {σ π : Type} (address : Address)
    (fetch : Nat → Except Err (Option σ)) (parse : σ → Except Err π)
    (startBlockNumber endBlockNumber n : Nat) : LoopOut π :=
  (gshStep address fetch parse endBlockNumber)^[n] (.running ⟨startBlockNumber, []⟩)

/-! ## Query APIs with QueryOptions (core/rpc/apis.go, lines 76-120) -/

/-- `types.QueryOptions` (fields per the repository's tests: page size and
page number); the Go zero value is `⟨0, 0⟩`. -/
structure QueryOptions where
  pageSize : Nat
  pageNumber : Nat
  deriving DecidableEq

/-- The fresh fresh empty Go types.QueryOptions substituted for a `nil` pointer. -/
def emptyQueryOptions : QueryOptions := ⟨0, 0⟩

/-- `GetAllTransactionsToAddress`: a `nil` options pointer (`none`) is
replaced by a fresh empty `QueryOptions`; `SetDefaults` (external, in
`types`) is applied; then the database query runs. -/
def getAllTransactionsToAddress {α : Type} (setDefaults : QueryOptions → QueryOptions)
    (dbQuery : Address → QueryOptions → Except Err (List α))
    (address : Address) (options : Option QueryOptions) : Except Err (List α) :=
  dbQuery address (setDefaults (options.getD emptyQueryOptions))

/-- `GetAllTransactionsInternalToAddress`: same options handling, different
database query. -/
def getAllTransactionsInternalToAddress {α : Type} (setDefaults : QueryOptions → QueryOptions)
    (dbQuery : Address → QueryOptions → Except Err (List α))
    (address : Address) (options : Option QueryOptions) : Except Err (List α) :=
  dbQuery address (setDefaults (options.getD emptyQueryOptions))

/-- Go types.ParsedEvent: the raw event plus the
outcome of `ParseEvent` when a contract ABI was available. -/
structure ParsedEvent (ε ρ : Type) where
  rawEvent : ε
  parsed : Option ρ
  deriving DecidableEq

/-- `GetAllEventsFromAddress`: nil-options handling as above, then the
database event query, the ABI lookup, and per-event parsing (skipped when
the ABI string is empty); any error aborts with `(nil, err)`. -/
def getAllEventsFromAddress {ε ρ : Type} (setDefaults : QueryOptions → QueryOptions)
    (dbEvents : Address → QueryOptions → Except Err (List ε))
    (dbGetABI : Address → Except Err String)
    (parseEvent : String → ε → Except Err ρ)
    (address : Address) (options : Option QueryOptions) :
    Except Err (List (ParsedEvent ε ρ)) := do
  let opts := setDefaults (options.getD emptyQueryOptions)
  let events ← dbEvents address opts
  let contractABI ← dbGetABI address
  events.mapM (fun e =>
    if contractABI = "" then pure ⟨e, none⟩
    else (parseEvent contractABI e).map (fun p => ⟨e, some p⟩))

/-! ## AddAddress (core/rpc/apis.go, lines 180-185) -/

/-- `AddAddress`: rejects the all-zero address with `errors.New("invalid
input")` before touching the database; otherwise delegates to
`db.AddAddresses` with the singleton list.  The database is a state
parameter `δ` so that "no write on the error path" is visible. -/
def addAddress {δ : Type} (dbAddAddresses : δ → List Address → δ × Option Err)
    (db : δ) (address : Address) : δ × Option Err :=
  if address = zeroAddress then (db, some "invalid input")
  else dbAddAddresses db [address]

/-! ## Concrete scenario inputs used by witnesses and counterexamples -/

/-- Storage parser that succeeds on every raw storage value. -/
def parseId : Nat → Except Err Nat := fun r => .ok r

/-- Fetch behaviour failing on the second of three blocks in range [1,3]. -/
def fetchFailSecond : Nat → Except Err (Option Nat) := fun i =>
  if i = 2 then .error "fetch failed" else .ok (some i)

/-- Raw storage present only at block 11 (nil elsewhere). -/
def fSparse : Nat → Option Nat := fun i => if i = 11 then some 42 else none

/-- Error-free fetch over `fSparse`. -/
def fetchSparse : Nat → Except Err (Option Nat) := fun i => .ok (fSparse i)

/-- Error-free fetch returning storage at every block. -/
def fAll : Nat → Option Nat := fun i => some i

/-- The `Except`-wrapped version of `fAll`. -/
def fetchAll : Nat → Except Err (Option Nat) := fun i => .ok (fAll i)

/-- Fetch behaviour failing at every block. -/
def fetchBoom : Nat → Except Err (Option Nat) := fun _ => .error "boom"

/-- A database state as the list of registered addresses; `AddAddresses`
appends them and reports no error. -/
def dbAppend : List Address → List Address → List Address × Option Err :=
  fun db as => (db ++ as, none)

/-! ## Helper lemmas about the GetStorageHistory loop -/

/-- The snapshots an error-free run accumulates: one entry per in-range
block with non-nil raw storage, in block order. -/
def snapshotsOf {σ π : Type} (f : Nat → Option σ) (pv : σ → π) (s e : Nat) :
    List (ParsedState π) :=
  (blockRange s e).filterMap (fun i => (f i).map (fun raw => ⟨i, pv raw⟩))

lemma gshGo_ok {σ π : Type} (fetch : Nat → Except Err (Option σ)) (parse : σ → Except Err π)
    (f : Nat → Option σ) (pv : σ → π)
    (hf : ∀ i, fetch i = .ok (f i)) (hp : ∀ r, parse r = .ok (pv r)) :
    ∀ (l : List Nat) (acc : List (ParsedState π)),
      gshGo fetch parse l acc =
        (.ok (acc ++ l.filterMap (fun i => (f i).map (fun raw => ⟨i, pv raw⟩))), l) := by
  intro l
  induction l with
  | nil => intro acc; simp [gshGo]
  | cons i rest ih =>
    intro acc
    rw [gshGo, hf i]
    cases hfi : f i with
    | none => simp [hfi, ih acc]
    | some raw => simp [hp raw, hfi, ih (acc ++ [⟨i, pv raw⟩])]

lemma map_blockNumber_filterMap {σ π : Type} (f : Nat → Option σ) (pv : σ → π) :
    ∀ l : List Nat,
      (l.filterMap (fun i => (f i).map (fun raw => (⟨i, pv raw⟩ : ParsedState π)))).map
          ParsedState.blockNumber
        = l.filter (fun i => (f i).isSome) := by
  intro l
  induction l with
  | nil => rfl
  | cons i rest ih => cases hfi : f i <;> simp [hfi, ih, List.filter_cons]

lemma gshGo_error {σ π : Type} (fetch : Nat → Except Err (Option σ)) (parse : σ → Except Err π)
    (err : Err) :
    ∀ (l1 : List Nat),
      (∀ j ∈ l1, ∃ o, fetch j = .ok o ∧ ∀ raw, o = some raw → ∃ v, parse raw = .ok v) →
      ∀ (b : Nat),
        (fetch b = .error err ∨ ∃ raw, fetch b = .ok (some raw) ∧ parse raw = .error err) →
      ∀ (l2 : List Nat) (acc : List (ParsedState π)),
        gshGo fetch parse (l1 ++ b :: l2) acc = (.error err, l1 ++ [b]) := by
  intro l1
  induction l1 with
  | nil =>
    intro _ b herr l2 acc
    rcases herr with h | ⟨raw, h1, h2⟩
    · simp [gshGo, h]
    · simp [gshGo, h1, h2]
  | cons j l1 ih =>
    intro hok b herr l2 acc
    obtain ⟨o, hfj, hpj⟩ := hok j (by simp)
    have hok' : ∀ j ∈ l1, ∃ o, fetch j = .ok o ∧ ∀ raw, o = some raw → ∃ v, parse raw = .ok v :=
      fun j hj => hok j (by simp [hj])
    cases o with
    | none => simp [gshGo, hfj, ih hok' b herr l2 acc]
    | some raw =>
      obtain ⟨v, hv⟩ := hpj raw rfl
      simp [gshGo, hfj, hv, ih hok' b herr l2 (acc ++ [⟨j, v⟩])]

/-! ## Claim theorems -/

/-- C2: for `startBlock ≤ endBlock` and an error-free run, GetStorageHistory
returns exactly one snapshot per in-range block whose fetched raw storage is
non-nil (none for nil-storage blocks), and the snapshot list is strictly
increasing in block number. -/
theorem getStorageHistory_sparse_snapshots {σ π : Type}
    (fetch : Nat → Except Err (Option σ)) (parse : σ → Except Err π)
    (f : Nat → Option σ) (pv : σ → π)
    (hf : ∀ i, fetch i = .ok (f i)) (hp : ∀ r, parse r = .ok (pv r))
    (address s e : Nat) (_hse : s ≤ e) :
    (getStorageHistory address s e fetch parse).1 =
        (some ⟨address, snapshotsOf f pv s e⟩, none) ∧
    (snapshotsOf f pv s e).map ParsedState.blockNumber =
        (blockRange s e).filter (fun i => (f i).isSome) ∧
    List.Pairwise (· < ·) ((snapshotsOf f pv s e).map ParsedState.blockNumber) := by
  have h1 := gshGo_ok fetch parse f pv hf hp (blockRange s e) []
  have h2 := map_blockNumber_filterMap f pv (blockRange s e)
  refine ⟨?_, h2, ?_⟩
  · rw [getStorageHistory]
    simp only [h1, snapshotsOf, List.nil_append]
  · rw [snapshotsOf, h2]
    exact (List.pairwise_lt_range' s (e + 1 - s)).filter _

/-- C2 witness: raw storage empty at blocks 10 and 12, non-empty at 11:
the call over [10,12] returns exactly one snapshot, for block 11. -/
theorem getStorageHistory_sparse_snapshots_witness :
    (10 : Nat) ≤ 12 ∧
    (getStorageHistory 7 10 12 fetchSparse parseId).1 = (some ⟨7, [⟨11, 42⟩]⟩, none) := by
  have h := getStorageHistory_sparse_snapshots fetchSparse parseId fSparse id
    (fun i => rfl) (fun r => rfl) 7 10 12 (by omega)
  exact ⟨by omega, h.1⟩

/-- C3: an empty range (startBlock > endBlock) yields an empty snapshot list
and zero fetch calls. -/
theorem getStorageHistory_empty_range {σ π : Type}
    (fetch : Nat → Except Err (Option σ)) (parse : σ → Except Err π)
    (address s e : Nat) (h : e < s) :
    getStorageHistory (σ := σ) (π := π) address s e fetch parse =
      ((some ⟨address, []⟩, none), []) := by
  have h0 : e + 1 - s = 0 := by omega
  simp [getStorageHistory, blockRange, h0, gshGo]

/-- C3 witness: start 5, end 3 returns an empty list with zero fetch calls. -/
theorem getStorageHistory_empty_range_witness :
    getStorageHistory 0 5 3 fetchSparse parseId = ((some ⟨0, []⟩, none), []) :=
  getStorageHistory_empty_range fetchSparse parseId 0 5 3 (by omega)

/-- C1 counterexample: fetch fails on the second of three blocks in [1,3];
the code returns the error with a nil response, not the best-effort prefix
(the snapshot for block 1) the claim says accompanies it. -/
theorem getStorageHistory_error_discards_cex :
    (getStorageHistory 7 1 3 fetchFailSecond parseId).1 = (none, some "fetch failed") ∧
    (getStorageHistory 7 1 3 fetchFailSecond parseId).1.1 ≠ some ⟨7, [⟨1, 1⟩]⟩ := by
  constructor
  · rfl
  · decide

/-- C1 amended: when the first fetch or decode error occurs at block `b`,
GetStorageHistory stops (no block after `b` is fetched) and returns that
error with a nil response; the snapshots accumulated for blocks before `b`
are discarded, not returned. -/
theorem getStorageHistory_first_error_aborts {σ π : Type}
    (fetch : Nat → Except Err (Option σ)) (parse : σ → Except Err π)
    (address s b e : Nat) (err : Err) (hsb : s ≤ b) (hbe : b ≤ e)
    (hok : ∀ j, s ≤ j → j < b →
      ∃ o, fetch j = .ok o ∧ ∀ raw, o = some raw → ∃ v, parse raw = .ok v)
    (herr : fetch b = .error err ∨ ∃ raw, fetch b = .ok (some raw) ∧ parse raw = .error err) :
    getStorageHistory address s e fetch parse = ((none, some err), blockRange s b) := by
  have hsplit : blockRange s e = List.range' s (b - s) ++ b :: List.range' (b + 1) (e - b) := by
    rw [blockRange, show b :: List.range' (b + 1) (e - b) = List.range' b (e - b + 1) from
      (List.range'_succ b (e - b) 1).symm]
    rw [show List.range' b (e - b + 1) = List.range' (s + (b - s)) (e - b + 1) by
      congr 1; omega]
    rw [List.range'_append_1 s (b - s) (e - b + 1)]
    congr 1
    omega
  have hmem : ∀ j ∈ List.range' s (b - s),
      ∃ o, fetch j = .ok o ∧ ∀ raw, o = some raw → ∃ v, parse raw = .ok v := by
    intro j hj
    rw [List.mem_range'_1] at hj
    exact hok j hj.1 (by omega)
  have hrun := gshGo_error fetch parse err (List.range' s (b - s)) hmem b herr
    (List.range' (b + 1) (e - b)) []
  rw [getStorageHistory, hsplit]
  simp only [hrun]
  have : List.range' s (b - s) ++ [b] = blockRange s b := by
    rw [blockRange, show b + 1 - s = (b - s) + 1 by omega, List.range'_1_concat]
    congr 2
    omega
  rw [this]

/-- C1 amended witness: fetch fails at block 2 of [1,3]; the call returns
(nil, error) having fetched exactly blocks 1 and 2. -/
theorem getStorageHistory_first_error_aborts_witness :
    getStorageHistory 7 1 3 fetchFailSecond parseId = ((none, some "fetch failed"), [1, 2]) := by
  have h := getStorageHistory_first_error_aborts fetchFailSecond parseId 7 1 2 3
    "fetch failed" (by omega) (by omega)
    (fun j h1 h2 => ⟨some j, by
      constructor
      · show fetchFailSecond j = .ok (some j)
        unfold fetchFailSecond
        rw [if_neg (by omega)]
      · intro raw hraw
        exact ⟨raw, rfl⟩⟩)
    (Or.inl (by rfl))
  simpa using h

/-- C8 counterexample: with endBlockNumber = 3 (strictly below the maximum
uint64) and a fetch that fails at the first block, the loop is finished
after a single body execution, not the end − start + 1 = 3 iterations the
claim asserts for every input with end below the maximum. -/
theorem gshIter_early_error_cex :
    gshIter 0 fetchBoom parseId 1 3 1 = .done none (some "boom") ∧
    (3 : Nat) + 1 - 1 = 3 ∧
    gshIter 0 fetchBoom parseId 1 3 1 ≠ .running ⟨2, [⟨1, 1⟩]⟩ := by
  refine ⟨rfl, rfl, ?_⟩
  decide

/-- C8 amended: for error-free fetch and decode behaviour, when
endBlockNumber < 2^64 − 1 the uint64 loop of GetStorageHistory executes its
body exactly endBlockNumber + 1 − startBlockNumber times (zero when start >
end) and then returns normally; when endBlockNumber = 2^64 − 1 the loop
condition i <= endBlockNumber never becomes false — `i++` wraps modulo 2^64
— so the machine runs forever.  (A fetch or decode error can still
terminate the call early, which the original exact-count claim missed.) -/
theorem gshIter_loop_behaviour {σ π : Type}
    (fetch : Nat → Except Err (Option σ)) (parse : σ → Except Err π)
    (f : Nat → Option σ) (pv : σ → π)
    (hf : ∀ i, fetch i = .ok (f i)) (hp : ∀ r, parse r = .ok (pv r))
    (address s e : Nat) (hs : s < 2 ^ 64) :
    (e < 2 ^ 64 - 1 →
      (∀ k, k ≤ e + 1 - s →
        ∃ sts, gshIter address fetch parse s e k = .running ⟨s + k, sts⟩) ∧
      ∃ r, gshIter address fetch parse s e (e + 1 - s + 1) = .done (some r) none) ∧
    (e = 2 ^ 64 - 1 → ∀ n, ∃ st, gshIter address fetch parse s e n = .running st) := by
  constructor
  · intro he
    have key : ∀ k, k ≤ e + 1 - s →
        ∃ sts, gshIter address fetch parse s e k = .running ⟨s + k, sts⟩ := by
      intro k
      induction k with
      | zero => intro _; exact ⟨[], by simp [gshIter]⟩
      | succ k ih =>
        intro hk
        obtain ⟨sts, hrun⟩ := ih (by omega)
        have hcond : s + k ≤ e := by omega
        have hlt : s + k + 1 < 2 ^ 64 := by omega
        rw [gshIter, Function.iterate_succ_apply', ← gshIter, hrun]
        rw [gshStep]
        simp only [if_pos hcond, hf (s + k)]
        cases hfk : f (s + k) with
        | none => exact ⟨sts, by simp; omega⟩
        | some raw => exact ⟨sts ++ [⟨s + k, pv raw⟩], by simp [hp raw]; omega⟩
    refine ⟨key, ?_⟩
    obtain ⟨sts, hrun⟩ := key (e + 1 - s) le_rfl
    refine ⟨⟨address, sts⟩, ?_⟩
    rw [gshIter, Function.iterate_succ_apply', ← gshIter, hrun, gshStep]
    rw [if_neg (by omega : ¬ s + (e + 1 - s) ≤ e)]
  · intro he n
    have key : ∀ n, ∃ st, gshIter address fetch parse s e n = .running st ∧ st.i < 2 ^ 64 := by
      intro n
      induction n with
      | zero => exact ⟨⟨s, []⟩, rfl, hs⟩
      | succ n ih =>
        obtain ⟨st, hrun, hi⟩ := ih
        have hcond : st.i ≤ e := by omega
        rw [gshIter, Function.iterate_succ_apply', ← gshIter, hrun, gshStep]
        simp only [if_pos hcond, hf st.i]
        cases hfi : f st.i with
        | none =>
          exact ⟨⟨(st.i + 1) % 2 ^ 64, st.states⟩, rfl, Nat.mod_lt _ (by omega)⟩
        | some raw =>
          refine ⟨⟨(st.i + 1) % 2 ^ 64, st.states ++ [⟨st.i, pv raw⟩]⟩, ?_,
            Nat.mod_lt _ (by omega)⟩
          simp [hp raw]
    obtain ⟨st, hrun, _⟩ := key n
    exact ⟨st, hrun⟩

/-- C8 amended witness: over [10,12] (end below the maximum) the error-free
sparse machine is still running after 2 steps and done after 4 = (12 + 1 -
10) + 1 steps; with end = 2^64 − 1 it is still running after 3 steps. -/
theorem gshIter_loop_behaviour_witness :
    (∃ sts, gshIter 7 fetchSparse parseId 10 12 2 = .running ⟨12, sts⟩) ∧
    (∃ r, gshIter 7 fetchSparse parseId 10 12 4 = .done (some r) none) ∧
    (∃ st, gshIter 7 fetchAll parseId 5 (2 ^ 64 - 1) 3 = .running st) := by
  have hs10 : (10 : Nat) < 2 ^ 64 := by omega
  have hs5 : (5 : Nat) < 2 ^ 64 := by omega
  have h12 : (12 : Nat) < 2 ^ 64 - 1 := by omega
  have hk2 : (2 : Nat) ≤ 12 + 1 - 10 := by omega
  have h1 := gshIter_loop_behaviour fetchSparse parseId fSparse id
    (fun i => rfl) (fun r => rfl) 7 10 12 hs10
  have h2 := gshIter_loop_behaviour fetchAll parseId fAll id
    (fun i => rfl) (fun r => rfl) 7 5 (2 ^ 64 - 1) hs5
  exact ⟨(h1.1 h12).1 2 hk2, (h1.1 h12).2, (h2.2 rfl) 3⟩

/-- Keccak-256 of the all-zero 32-byte word, as pinned by the repository's
unit tests. -/
lemma hash_zero_eq :
    hash 0 = 0x290decd9548b62a8d60345a988386fc84ba6bc95484008f6362f93160ef3e563 := by
  decide

/-- Keccak-256 of the 32-byte test word, as pinned by the repository's unit
tests. -/
lemma hash_large_eq :
    hash 0xdf6966c971051c3d54ec59162606531493a51404a002842f56009d7e5cf4a8ca =
      0xafc64d4667876823fbd3f2510daa71752dbb32dda014f138587218722b444b5a := by
  decide

/-- C4 counterexample: the claim's first vector drops the final hex digit —
the digest of the all-zero word ends in ...e563, not ...e56 (the unit tests
assert the ...e563 value). -/
theorem hash_zero_vector_cex :
    hash 0 ≠ 0x290decd9548b62a8d60345a988386fc84ba6bc95484008f6362f93160ef3e56 := by
  rw [hash_zero_eq]
  decide

/-- C4 amended: the SlotHasher satisfies the two exact vectors of the unit
tests: hash of the all-zero word is 0x290d...e563 and hash of
0xdf69...a8ca is 0xafc6...4b5a. -/
theorem hash_vectors :
    hash 0 = 0x290decd9548b62a8d60345a988386fc84ba6bc95484008f6362f93160ef3e563 ∧
    hash 0xdf6966c971051c3d54ec59162606531493a51404a002842f56009d7e5cf4a8ca =
      0xafc64d4667876823fbd3f2510daa71752dbb32dda014f138587218722b444b5a :=
  ⟨hash_zero_eq, hash_large_eq⟩

/-- C5: roundUpTo32 is the least multiple of 32 that is ≥ n: a multiple of
32, at least n, below n + 32, zero at zero, minimal among 32-multiples ≥ n,
and satisfying the four unit-test vectors. -/
theorem roundUpTo32_spec (n : Nat) :
    32 ∣ roundUpTo32 n ∧ n ≤ roundUpTo32 n ∧ roundUpTo32 n < n + 32 ∧
    roundUpTo32 0 = 0 ∧
    (∀ m, 32 ∣ m → n ≤ m → roundUpTo32 n ≤ m) ∧
    roundUpTo32 1 = 32 ∧ roundUpTo32 32 = 32 ∧ roundUpTo32 33 = 64 := by
  refine ⟨⟨(n + 31) / 32, by rw [roundUpTo32, Nat.mul_comm]⟩, ?_, ?_, by decide, ?_, by decide,
    by decide, by decide⟩
  · rw [roundUpTo32]; omega
  · rw [roundUpTo32]; omega
  · intro m hdvd hnm
    obtain ⟨t, rfl⟩ := hdvd
    rw [roundUpTo32]
    omega

/-- C5 witness: instantiated at n = 33 with the 32-multiple 64 ≥ 33, whose
minimality bound roundUpTo32 33 ≤ 64 the theorem yields. -/
theorem roundUpTo32_spec_witness :
    32 ∣ roundUpTo32 33 ∧ 33 ≤ roundUpTo32 33 ∧ roundUpTo32 33 < 33 + 32 ∧
    roundUpTo32 33 ≤ 64 := by
  obtain ⟨h1, h2, h3, -, h5, -⟩ := roundUpTo32_spec 33
  exact ⟨h1, h2, h3, h5 64 (by decide) (by decide)⟩

/-- C6: the two ByteAligner extraction vectors of the unit tests: a 10-byte
window at offset 0 and at offset 5, both yielding 0x00000000001023456789. -/
theorem extract_vectors :
    extract 0 10 (natToBytes32 0x1023456789) =
      [0, 0, 0, 0, 0, 0x10, 0x23, 0x45, 0x67, 0x89] ∧
    extract 5 10 (natToBytes32 0x10234567890000000000) =
      [0, 0, 0, 0, 0, 0x10, 0x23, 0x45, 0x67, 0x89] := by
  constructor <;> decide

lemma byteFromRight_replicate_zero_append (k : Nat) (bs : List Nat) (j : Nat) :
    byteFromRight (List.replicate k 0 ++ bs) j = byteFromRight bs j := by
  unfold byteFromRight
  by_cases hj : j < bs.length
  · rw [dif_pos hj, dif_pos (by simp; omega)]
    have hlen : (List.replicate k (0 : Nat) ++ bs).length = k + bs.length := by simp
    have hidx : (List.replicate k (0 : Nat) ++ bs).length - 1 - j =
        k + (bs.length - 1 - j) := by simp; omega
    simp only [List.get_eq_getElem, hidx]
    rw [List.getElem_append_right (by simp : (List.replicate k (0 : Nat)).length ≤ k + (bs.length - 1 - j))]
    congr 1
    simp
  · rw [dif_neg hj]
    by_cases hjk : j < (List.replicate k (0 : Nat) ++ bs).length
    · rw [dif_pos hjk]
      simp only [List.get_eq_getElem]
      have hk : (List.replicate k (0 : Nat) ++ bs).length - 1 - j < k := by simp at hjk ⊢; omega
      rw [List.getElem_append_left (by simpa using hk)]
      simp
    · rw [dif_neg hjk]

/-- C7: the extraction result depends only on the length-byte window offset
bytes from the right-hand end — zero bytes prepended on the far (left) side
never change the result. -/
theorem extract_zero_pad_invariant (offset length k : Nat) (rawBytes : List Nat) :
    extract offset length (List.replicate k 0 ++ rawBytes) =
      extract offset length rawBytes := by
  unfold extract
  exact List.map_congr_left fun j _ => byteFromRight_replicate_zero_append k rawBytes _

/-- C9: the three query operations treat a nil options pointer exactly as a
fresh default-initialized QueryOptions: a fresh empty value is substituted
and SetDefaults applied before the query, for every SetDefaults behaviour
and every database behaviour. -/
theorem queryOptions_nil_total {α ε ρ : Type} (setDefaults : QueryOptions → QueryOptions)
    (dbQuery dbQuery2 : Address → QueryOptions → Except Err (List α))
    (dbEvents : Address → QueryOptions → Except Err (List ε))
    (dbGetABI : Address → Except Err String)
    (parseEvent : String → ε → Except Err ρ) (address : Address) :
    getAllTransactionsToAddress setDefaults dbQuery address none =
        getAllTransactionsToAddress setDefaults dbQuery address (some emptyQueryOptions) ∧
    getAllTransactionsInternalToAddress setDefaults dbQuery2 address none =
        getAllTransactionsInternalToAddress setDefaults dbQuery2 address
          (some emptyQueryOptions) ∧
    getAllEventsFromAddress setDefaults dbEvents dbGetABI parseEvent address none =
        getAllEventsFromAddress setDefaults dbEvents dbGetABI parseEvent address
          (some emptyQueryOptions) :=
  ⟨rfl, rfl, rfl⟩

/-- C10: AddAddress rejects the zero address with the error "invalid input"
and leaves the database untouched; for any other address it delegates to
AddAddresses with exactly that one address. -/
theorem addAddress_spec {δ : Type} (dbAddAddresses : δ → List Address → δ × Option Err)
    (db : δ) (address : Address) :
    (address = zeroAddress → addAddress dbAddAddresses db address = (db, some "invalid input")) ∧
    (address ≠ zeroAddress → addAddress dbAddAddresses db address = dbAddAddresses db [address]) := by
  constructor <;> intro h <;> simp [addAddress, h]

/-- C10 witness: over a list-of-addresses database, adding the zero address
errors without a write, and adding address 5 appends exactly it. -/
theorem addAddress_spec_witness :
    addAddress dbAppend [] 0 = ([], some "invalid input") ∧
    addAddress dbAppend [] 5 = ([5], none) := by
  refine ⟨(addAddress_spec dbAppend [] 0).1 rfl, ?_⟩
  have h := (addAddress_spec dbAppend [] 5).2 (by decide)
  simpa [dbAppend] using h

end QuorumReport
